import Mathlib

/-!
Shallow embedding of `catfishq/cat_fastq.py` (streaming FASTQ filter and
concatenation pipeline) together with proofs about its record predicates,
channel parsing, timestamp handling, allow-list logic and the aggregation
driver loop.  Python `datetime` values are modelled as tuples of naturals,
Python sets as `Finset`, fallible code as `Except`, and the floating-point
quality estimator as its real-number idealisation.
-/

/-- Naive wall-clock timestamp, modelling a Python `datetime` value after
`tzinfo` has been discarded.  Field ranges are enforced by `mkPyDateTime`,
which models the `datetime` constructor validation. -/
structure PyDateTime where
  year : Nat
  month : Nat
  day : Nat
  hour : Nat
  minute : Nat
  second : Nat
  usec : Nat
  deriving DecidableEq, Repr

/-- Linear key of a timestamp.  On values whose fields are in the ranges
enforced by `mkPyDateTime` the key order coincides with the lexicographic
field order used by Python `datetime` comparison (each multiplier exceeds
the maximal value of the following field). -/
def PyDateTime.key (d : PyDateTime) : Nat :=
  (((((d.year * 13 + d.month) * 32 + d.day) * 24 + d.hour) * 60 + d.minute) * 60
      + d.second) * 1000000 + d.usec

/-- Embedding of Python `datetime` comparison `a <= b`. -/
def dtLe (a b : PyDateTime) : Bool :=
  decide (a.key ≤ b.key)

/-- Gregorian leap-year test, as used by `datetime` day validation. -/
def isLeapYear (y : Nat) : Bool :=
  decide ((y % 4 = 0 ∧ y % 100 ≠ 0) ∨ y % 400 = 0)

/-- Number of days of a month, as used by `datetime` day validation. -/
def daysInMonth (y m : Nat) : Nat :=
  if m = 2 then (if isLeapYear y then 29 else 28)
  else if m = 4 ∨ m = 6 ∨ m = 9 ∨ m = 11 then 30
  else 31

/-- Embedding of the Python `datetime` constructor: rejects out-of-range
fields (this is where `strptime` raises for, e.g., second `61` or
February 30). -/
def mkPyDateTime (y mo d h mi s us : Nat) : Option PyDateTime :=
  if 1 ≤ y ∧ 1 ≤ mo ∧ mo ≤ 12 ∧ 1 ≤ d ∧ d ≤ daysInMonth y mo ∧ h ≤ 23 ∧
      mi ≤ 59 ∧ s ≤ 59 ∧ us ≤ 999999 then
    some ⟨y, mo, d, h, mi, s, us⟩
  else none

/-- Numeric value of an ASCII digit character. -/
def digitVal (c : Char) : Nat := c.toNat - 48

/-- Value of a digit string, most significant digit first. -/
def natOfDigits (l : List Char) : Nat :=
  l.foldl (fun a c => a * 10 + digitVal c) 0

/-- Split exactly `n` leading digit characters off a character list. -/
def splitDigitsN : Nat → List Char → Option (List Char × List Char)
  | 0, l => some ([], l)
  | _ + 1, [] => none
  | n + 1, c :: l =>
    if c.isDigit then (splitDigitsN n l).map (fun p => (c :: p.1, p.2)) else none

/-- Read exactly four digits (the `%Y` directive of `strptime`). -/
def read4 (l : List Char) : Option (Nat × List Char) :=
  (splitDigitsN 4 l).map (fun p => (natOfDigits p.1, p.2))

/-- Read exactly two digits (the digit pairs of the `%z` directive). -/
def read2 (l : List Char) : Option (Nat × List Char) :=
  (splitDigitsN 2 l).map (fun p => (natOfDigits p.1, p.2))

/-- Read one or two digits, two preferred (the `%m`, `%d`, `%H`, `%M`, `%S`
directives of `strptime`; out-of-range two-digit values are rejected later
by `mkPyDateTime`, which ends the parse exactly as the `strptime` regex
alternatives do because the following expected character is never a
digit). -/
def read12 : List Char → Option (Nat × List Char)
  | [] => none
  | c :: l =>
    if c.isDigit then
      match l with
      | d :: l2 =>
        if d.isDigit then some (digitVal c * 10 + digitVal d, l2)
        else some (digitVal c, l)
      | [] => some (digitVal c, [])
    else none

/-- Match one literal character case-insensitively (`strptime` compiles its
format regex with `IGNORECASE`). -/
def litCI (c : Char) : List Char → Option (List Char)
  | [] => none
  | d :: l => if d.toLower = c.toLower then some l else none

/-- Parse the shared `%Y-%m-%dT%H:%M:%S` prefix of both timestamp formats,
returning the six fields and the unconsumed rest. -/
def parseDatePrefix (l : List Char) : Option (Nat × Nat × Nat × Nat × Nat × Nat × List Char) := do
  let (y, r) ← read4 l
  let r ← litCI '-' r
  let (mo, r) ← read12 r
  let r ← litCI '-' r
  let (d, r) ← read12 r
  let r ← litCI 'T' r
  let (h, r) ← read12 r
  let r ← litCI ':' r
  let (mi, r) ← read12 r
  let r ← litCI ':' r
  let (s, r) ← read12 r
  some (y, mo, d, h, mi, s, r)

/-- Embedding of `strptime` with format `%Y-%m-%dT%H:%M:%SZ`: the shared
prefix, a literal `Z`, end of string, then constructor validation. -/
def strptime_a (s : String) : Option PyDateTime := do
  let (y, mo, d, h, mi, sec, r) ← parseDatePrefix s.data
  let r ← litCI 'Z' r
  if r = [] then mkPyDateTime y mo d h mi sec 0 else none

/-- Drop one optional colon (the `:?` pieces of the `%z` regex). -/
def optColon : List Char → List Char
  | ':' :: r => r
  | l => l

/-- Read the `%f` directive: one to six fraction digits, scaled to
microseconds; a seventh digit is left unconsumed and makes the caller
fail, as in the greedy `[0-9]{1,6}` regex. -/
def readFrac (l : List Char) : Option (Nat × List Char) :=
  let ds := l.takeWhile Char.isDigit
  if ds = [] then none
  else
    let d6 := ds.take 6
    some (natOfDigits d6 * 10 ^ (6 - d6.length), l.drop d6.length)

/-- Optional fraction-of-seconds tail inside `%z` (`(\.\d{1,6})?`). -/
def parseTzFrac (l : List Char) : Option (List Char) :=
  match l with
  | '.' :: rest =>
    let ds := rest.takeWhile Char.isDigit
    if ds = [] then some ('.' :: rest)
    else some (rest.drop (min ds.length 6))
  | _ => some l

/-- Optional seconds group inside `%z` (`(:?\d\d(\.\d{1,6})?)?`). -/
def parseTzSec (l : List Char) : Option (List Char) :=
  match splitDigitsN 2 (optColon l) with
  | some (_, rest) => parseTzFrac rest
  | none => some l

/-- Signed numeric UTC offset of the `%z` directive:
`[+-]\d\d:?\d\d(:?\d\d(\.\d{1,6})?)?` with the offset magnitude bounded as
by `datetime.timezone`.  The parsed offset is discarded by the caller. -/
def parseTzSigned (r : List Char) : Option (List Char) := do
  let (hh, r1) ← read2 r
  let (mm, r3) ← read2 (optColon r1)
  if hh ≤ 23 ∧ mm ≤ 59 then parseTzSec r3 else none

/-- The `%z` directive: `Z` (case-sensitive) or a signed offset. -/
def parseTz : List Char → Option (List Char)
  | 'Z' :: r => some r
  | '+' :: r => parseTzSigned r
  | '-' :: r => parseTzSigned r
  | _ => none

/-- Embedding of `strptime` with format `%Y-%m-%dT%H:%M:%S.%f%z` followed by
`.replace(tzinfo=None)`: the shared prefix, a dot, fraction digits, a UTC
offset that is parsed and then discarded, end of string, and constructor
validation. -/
def strptime_b (s : String) : Option PyDateTime := do
  let (y, mo, d, h, mi, sec, r) ← parseDatePrefix s.data
  let r ← litCI '.' r
  let (us, r) ← readFrac r
  let r ← parseTz r
  if r = [] then mkPyDateTime y mo d h mi sec us else none

/-- Error values raised by the time-handling code: `noComment` models the
`TypeError` of searching a `None` comment, `noStartTime` the
`AttributeError` of taking `.group(1)` of a failed match, and
`badTimestamp` the `ValueError` raised by `strptime`. -/
inductive TimeErr where
  | noComment
  | noStartTime
  | badTimestamp
  deriving DecidableEq, Repr

/-- Embedding of `parse_timestamp`: try format `%Y-%m-%dT%H:%M:%SZ` first
and only on its `ValueError` fall back to `%Y-%m-%dT%H:%M:%S.%f%z`; a
string matching neither format raises. -/
def parse_timestamp (s : String) : Except TimeErr PyDateTime :=
  match strptime_a s with
  | some t => .ok t
  | none =>
    match strptime_b s with
    | some t => .ok t
    | none => .error .badTimestamp

/-- Case-insensitive character equality, for the `re.I` flag. -/
def lowerEq (a b : Char) : Bool :=
  a.toLower = b.toLower

/-- If `key` is a case-insensitive prefix of the second list, return the
rest after it. -/
def ciPrefixRest : List Char → List Char → Option (List Char)
  | [], l => some l
  | _ :: _, [] => none
  | k :: ks, c :: cs => if lowerEq c k then ciPrefixRest ks cs else none

/-- The literal searched for by `re.search(r'start_time=([^ ]+)', ...)`. -/
def startTimeKey : List Char :=
  "start_time=".data

/-- Scan for the leftmost position where `start_time=` (case-insensitively,
as the source passes `re.I`) is followed by at least one non-space
character, and return the maximal run of non-space characters after the
`=`; positions where the capture would be empty are skipped, as `re.search`
does. -/
def searchStartTimeAux : List Char → Option (List Char)
  | [] => none
  | c :: cs =>
    match ciPrefixRest startTimeKey (c :: cs) with
    | some after =>
      let tok := after.takeWhile (fun ch => ch != ' ')
      if tok = [] then searchStartTimeAux cs else some tok
    | none => searchStartTimeAux cs

/-- Extract the `start_time=` token of a comment: a `None` comment raises
`TypeError` inside `re.search`, a missing field raises `AttributeError` at
`.group(1)`. -/
def searchStartTime (comment : Option String) : Except TimeErr String :=
  match comment with
  | none => .error .noComment
  | some s =>
    match searchStartTimeAux s.data with
    | some tok => .ok (String.mk tok)
    | none => .error .noStartTime

/-- Acquisition time of a record: the `start_time=` token of its comment,
parsed with `parse_timestamp`.  This is the extraction performed inline by
both `check_seq_time` and `compare_start_time`. -/
def read_start_time (comment : Option String) : Except TimeErr PyDateTime :=
  match searchStartTime comment with
  | .error e => .error e
  | .ok tok => parse_timestamp tok

/-- The `bool_max` flag of `check_seq_time`: no upper bound, or start at or
below it. -/
def boundOkMax (start : PyDateTime) : Option PyDateTime → Bool
  | none => true
  | some mx => dtLe start mx

/-- The `bool_min` flag of `check_seq_time`: no lower bound, or start at or
above it. -/
def boundOkMin (start : PyDateTime) : Option PyDateTime → Bool
  | none => true
  | some mn => dtLe mn start

/-- Embedding of `check_seq_time`: with both bounds `None` the record
passes outright (the comment is never read); otherwise the acquisition
time is extracted and parsed (errors propagate) and the record passes iff
it is at or below the upper bound and at or above the lower bound, each
when set. -/
def check_seq_time (comment : Option String) (max_start_time min_start_time : Option PyDateTime) :
    Except TimeErr Bool :=
  match max_start_time, min_start_time with
  | none, none => .ok true
  | mx, mn =>
    match read_start_time comment with
    | .error e => .error e
    | .ok start => .ok (boundOkMax start mx && boundOkMin start mn)

/-- Embedding of `compare_start_time`: extract and parse the acquisition
time of the comment and return the smaller of it and the accumulator;
`none` models the integer `0` sentinel the source initialises
`min_start_time` with. -/
def compare_start_time (comment : Option String) (min_start_time : Option PyDateTime) :
    Except TimeErr PyDateTime :=
  match read_start_time comment with
  | .error e => .error e
  | .ok start_time =>
    match min_start_time with
    | none => .ok start_time
    | some m => if dtLe m start_time then .ok m else .ok start_time

/-- One sequence record as surfaced by the external `pysam.FastxFile`
reader: identifier, nucleotide string, per-base quality scores and an
optional free-text comment (the annotation). -/
structure FastxRecord where
  name : String
  sequence : String
  quality : List Nat
  comment : Option String
  deriving DecidableEq, Repr

/-- Inner loop of `get_start_time` over the records of one file: thread the
accumulated minimum through `compare_start_time`, propagating errors. -/
def get_start_time_entries : List FastxRecord → Option PyDateTime → Except TimeErr (Option PyDateTime)
  | [], acc => .ok acc
  | e :: es, acc =>
    match compare_start_time e.comment acc with
    | .error err => .error err
    | .ok t => get_start_time_entries es (some t)

/-- Outer loop of `get_start_time` over all files. -/
def get_start_time_files : List (List FastxRecord) → Option PyDateTime → Except TimeErr (Option PyDateTime)
  | [], acc => .ok acc
  | f :: fs, acc =>
    match get_start_time_entries f acc with
    | .error err => .error err
    | .ok acc2 => get_start_time_files fs acc2

/-- Embedding of `get_start_time`: stream every record of every input file
(no filtering) and fold the minimal acquisition time, starting from the
`0` sentinel (`none`).  Each inner list stands for the records of one file
produced by the external reader after path expansion. -/
def get_start_time (files : List (List FastxRecord)) : Except TimeErr (Option PyDateTime) :=
  get_start_time_files files none

/-- The 100-entry error-probability lookup table `LOOKUP[q] = 10 ** (-0.1*q)`
of the source, idealised over the reals; the estimator only indexes it with
scores below 100. -/
noncomputable def LOOKUP (q : Nat) : ℝ :=
  (10 : ℝ) ^ (-(0.1 : ℝ) * q)

/-- Embedding of `_compute_mean_qscore`: `0.0` for an empty score list,
otherwise the phred score whose error probability is the arithmetic mean of
the per-score error probabilities, computed as `-10 * log10(mean)`. -/
noncomputable def _compute_mean_qscore (scores : List Nat) : ℝ :=
  if scores = [] then 0
  else -10 * Real.logb 10 (((scores.map LOOKUP).sum) / scores.length)

/-- Try to match `ch=` followed by at least one digit at the head of the
list, returning the greedy digit run value. -/
def chHere : List Char → Option Nat
  | 'c' :: 'h' :: '=' :: rest =>
    let ds := rest.takeWhile Char.isDigit
    if ds = [] then none else some (natOfDigits ds)
  | _ => none

/-- Scan for the leftmost whitespace character directly followed by
`ch=<digits>` (the `\s` branch of `(^|\s)ch=(?P<channel>\d+)`). -/
def scanCh : List Char → Option Nat
  | [] => none
  | c :: cs =>
    if c.isWhitespace then
      match chHere cs with
      | some n => some n
      | none => scanCh cs
    else scanCh cs

/-- Embedding of `get_channel_from_comment`: a falsy comment (absent or
empty) has no channel; otherwise the first match of
`(^|\s)ch=(?P<channel>\d+)` is taken — anchored at the start of the string
or after a whitespace character. -/
def get_channel_from_comment (comment : Option String) : Option Nat :=
  match comment with
  | none => none
  | some s =>
    if s = "" then none
    else
      match chHere s.data with
      | some n => some n
      | none => scanCh s.data

/-- The two `ValueError` flavours of the channel-range parser: a token not
matching `a` or `a-b`, and an empty normalised range. -/
inductive ChannelsErr where
  | formatErr
  | rangeErr
  deriving DecidableEq, Repr

/-- Python whitespace characters stripped by `str.strip()`. -/
def pySpace (c : Char) : Bool :=
  decide (c = ' ' ∨ c = '\t' ∨ c = '\n' ∨ c = '\r' ∨ c = '\x0b' ∨ c = '\x0c')

/-- Strip leading and trailing whitespace from a character list. -/
def pyStripChars (l : List Char) : List Char :=
  ((l.dropWhile pySpace).reverse.dropWhile pySpace).reverse

/-- Embedding of `str.strip()`. -/
def pyStrip (s : String) : String :=
  String.mk (pyStripChars s.data)

/-- Match the anchored regex `^(?P<c1>\d+)(-(?P<c2>\d+))?$` on a character
list: a digit run, optionally a dash and a second digit run, then end of
input. -/
def matchChannelRange (l : List Char) : Option (Nat × Option Nat) :=
  let d1 := l.takeWhile Char.isDigit
  if d1 = [] then none
  else
    match l.drop d1.length with
    | [] => some (natOfDigits d1, none)
    | '-' :: rest =>
      let d2 := rest.takeWhile Char.isDigit
      if d2 = [] then none
      else if rest.drop d2.length = [] then some (natOfDigits d1, some (natOfDigits d2))
      else none
    | _ => none

/-- Embedding of `_parse_channels_input`: strip the token, match the
single-value-or-range pattern (else a format `ValueError`), normalise to a
clopen range `[le, he)` (with `he = c2 + 1` when a second value is given),
reject `he <= le` with a range `ValueError`, and return `range(le, he)`. -/
def _parse_channels_input (channels_input : String) : Except ChannelsErr (List Nat) :=
  match matchChannelRange (pyStripChars channels_input.data) with
  | none => .error .formatErr
  | some (le, c2) =>
    let he := match c2 with | none => le + 1 | some h => h + 1
    if he ≤ le then .error .rangeErr
    else .ok (List.range' le (he - le))

/-- Fold of `get_channels_set` over the remaining tokens, accumulating the
set union of the parsed ranges; the first `ValueError` aborts. -/
def get_channels_set_aux : List String → Finset Nat → Except ChannelsErr (Finset Nat)
  | [], acc => .ok acc
  | e :: es, acc =>
    match _parse_channels_input e with
    | .error err => .error err
    | .ok cs => get_channels_set_aux es (acc ∪ cs.toFinset)

/-- Embedding of `get_channels_set`: the union of all parsed tokens,
starting from the empty set. -/
def get_channels_set (channels_input_list : List String) : Except ChannelsErr (Finset Nat) :=
  get_channels_set_aux channels_input_list ∅

/-- Boolean success test for a channel-parse result. -/
def chOk : Except ChannelsErr (List Nat) → Bool
  | .ok _ => true
  | .error _ => false

/-- The three values recognised by the `--comments` option. -/
inductive CommentsMode where
  | forward
  | skip
  | wrap
  deriving DecidableEq, Repr

/-- Python truthiness of a comment: present and non-empty. -/
def commentTruthy : Option String → Bool
  | none => false
  | some s => decide (s ≠ "")

/-- The comment rewrite of `parse_fastqs`: a truthy comment in mode `wrap`
becomes `CO:Z:<original>`; mode `skip` clears the comment; otherwise the
comment is forwarded unchanged. -/
def rewrite_comment (mode : CommentsMode) (comment : Option String) : Option String :=
  if commentTruthy comment = true ∧ mode = CommentsMode.wrap then
    comment.map (fun c => "CO:Z:" ++ c)
  else if mode = CommentsMode.skip then none
  else comment

/-- The channel test of `parse_fastqs`: with a configured channel set the
record is rejected when its comment yields no channel id or one outside
the set (`get_channel_from_comment(entry.comment) not in channels`). -/
def channelRejected (channels : Option (Finset Nat)) (comment : Option String) : Bool :=
  match channels with
  | none => false
  | some s =>
    match get_channel_from_comment comment with
    | some c => decide (c ∉ s)
    | none => true

/-- Filter configuration of `parse_fastqs`, one field per keyword
argument. -/
structure FilterCfg where
  min_len : Nat
  min_qscore : Nat
  max_start_time : Option PyDateTime
  min_start_time : Option PyDateTime
  comments : CommentsMode
  channels : Option (Finset Nat)

/-- Rewrite-and-channel tail of the `parse_fastqs` loop body, run after the
time check: rewrite the comment, then apply the channel test to the
rewritten comment. -/
def parse_fastqs_tail (cfg : FilterCfg) (entry : FastxRecord) : Option FastxRecord :=
  let entry2 : FastxRecord := { entry with comment := rewrite_comment cfg.comments entry.comment }
  if channelRejected cfg.channels entry2.comment then none else some entry2

open Classical in
/-- Loop body of `parse_fastqs` for one record, in source order: length
test, mean-quality test, time-window test (whose errors propagate), comment
rewrite, channel test; `ok none` models `continue`, `ok (some r)` models
`yield r`. -/
noncomputable def parse_fastqs_step (cfg : FilterCfg) (entry : FastxRecord) :
    Except TimeErr (Option FastxRecord) :=
  if cfg.min_len ≠ 0 ∧ entry.sequence.length < cfg.min_len then .ok none
  else if cfg.min_qscore ≠ 0 ∧ _compute_mean_qscore entry.quality < (cfg.min_qscore : ℝ) then .ok none
  else
    match check_seq_time entry.comment cfg.max_start_time cfg.min_start_time with
    | .error e => .error e
    | .ok false => .ok none
    | .ok true => .ok (parse_fastqs_tail cfg entry)

/-- Embedding of the `parse_fastqs` generator over the records of one
file: the surviving records in order, together with the error, if any,
that aborted the stream (records yielded before the error are kept, as a
consumer of the generator would have received them). -/
noncomputable def parse_fastqs (cfg : FilterCfg) : List FastxRecord → List FastxRecord × Option TimeErr
  | [] => ([], none)
  | e :: es =>
    match parse_fastqs_step cfg e with
    | .error err => ([], some err)
    | .ok none => parse_fastqs cfg es
    | .ok (some r) =>
      let p := parse_fastqs cfg es
      (r :: p.1, p.2)

/-- Error raised by the decision-log loader when a row has too few
comma-separated columns for `cols[4]` / `cols[6]` (`IndexError`). -/
inductive LoadErr where
  | indexErr
  deriving DecidableEq, Repr

/-- Python truthiness of an optional list (the `filter_read_as_decision`
argument): absent or empty is falsy. -/
def listTruthy : Option (List String) → Bool
  | none => false
  | some l => decide (l ≠ [])

/-- Plain-identifier loader of `format_fq`: one stripped line per
identifier, collected into a set. -/
def load_plain_ids (ls : List String) : Finset String :=
  (ls.map pyStrip).toFinset

/-- Decision-log loader of `format_fq`: per line, split the stripped line
on commas, read the identifier from column 4 and the decision from column
6 (raising `IndexError` when absent), and keep the identifier when the
decision is among the accepted labels. -/
def load_as_ids (decisions : List String) : List String → Finset String → Except LoadErr (Finset String)
  | [], acc => .ok acc
  | line :: rest, acc =>
    let cols := (pyStrip line).splitOn ","
    match cols.get? 4, cols.get? 6 with
    | some read_id, some read_decision =>
      load_as_ids decisions rest (if read_decision ∈ decisions then insert read_id acc else acc)
    | _, _ => .error .indexErr

/-- The `keep_ids` construction of `format_fq` (lines 358-377): `none` when
no allow-list source is configured; the stripped lines of the identifier
file when given; extended by the decision-log identifiers when both the
log and a non-empty accepted-label list are given (with the Python
`if not keep_ids` reset, which is the identity on sets).  Each file
argument stands for the lines of the corresponding file. -/
def load_keep_ids (idLines : Option (List String)) (asLines : Option (List String))
    (asDecisions : Option (List String)) : Except LoadErr (Option (Finset String)) :=
  let keep0 : Option (Finset String) :=
    match idLines with
    | none => none
    | some ls => some (load_plain_ids ls)
  if asLines.isSome = true ∧ listTruthy asDecisions = true then
    match load_as_ids (asDecisions.getD []) (asLines.getD []) (keep0.getD ∅) with
    | .error e => .error e
    | .ok s => .ok (some s)
  else .ok keep0

/-- Driver configuration of `format_fq`: deduplication flag, resolved
allow-list, and the two global caps (`0` meaning unset, as in the
source). -/
structure DriverCfg where
  dedup : Bool
  keep_ids : Option (Finset String)
  max_n : Nat
  max_bp : Nat
  deriving DecidableEq

/-- Mutable run state of the `format_fq` write loop: the dedup set
`read_ids`, the counters `n` and `n_bp`, and the records written so far. -/
structure DriverState where
  read_ids : Finset String
  n : Nat
  n_bp : Nat
  out : List FastxRecord
  deriving DecidableEq

/-- Initial driver state: empty dedup set, zero counters, empty output. -/
def initDriverState : DriverState :=
  ⟨∅, 0, 0, []⟩

/-- The stop test `max_n and n >= max_n or max_bp and n_bp > max_bp`
evaluated after each write. -/
def stopCond (cfg : DriverCfg) (st : DriverState) : Bool :=
  decide ((cfg.max_n ≠ 0 ∧ cfg.max_n ≤ st.n) ∨ (cfg.max_bp ≠ 0 ∧ cfg.max_bp < st.n_bp))

/-- The dedup rejection `dedup and entry.name in read_ids`. -/
def dedupRejected (cfg : DriverCfg) (st : DriverState) (name : String) : Bool :=
  cfg.dedup && decide (name ∈ st.read_ids)

/-- The allow-list rejection
`keep_ids is not None and entry.name not in keep_ids`: a `None` allow-list
rejects nothing, a present (even empty) set rejects every non-member. -/
def allowRejected (keep_ids : Option (Finset String)) (name : String) : Bool :=
  match keep_ids with
  | none => false
  | some s => decide (name ∉ s)

/-- The write block of the loop: emit the record, record its identifier
when deduplicating, and bump both counters. -/
def writeEntry (cfg : DriverCfg) (st : DriverState) (entry : FastxRecord) : DriverState :=
  { read_ids := if cfg.dedup then insert entry.name st.read_ids else st.read_ids
    n := st.n + 1
    n_bp := st.n_bp + entry.sequence.length
    out := st.out ++ [entry] }

/-- Loop body of the `format_fq` write loop for one surviving record of
`parse_fastqs`: dedup test, allow-list test, write, stop test; the flag
signals the `return` that terminates the whole run. -/
def format_fq_entry (cfg : DriverCfg) (st : DriverState) (entry : FastxRecord) : DriverState × Bool :=
  if dedupRejected cfg st entry.name = true then (st, false)
  else if allowRejected cfg.keep_ids entry.name = true then (st, false)
  else (writeEntry cfg st entry, stopCond cfg (writeEntry cfg st entry))

/-- The per-file record loop of `format_fq`, stopping the file as soon as
the stop flag is raised. -/
def format_fq_entries (cfg : DriverCfg) : DriverState → List FastxRecord → DriverState × Bool
  | st, [] => (st, false)
  | st, e :: es =>
    if (format_fq_entry cfg st e).2 = true then ((format_fq_entry cfg st e).1, true)
    else format_fq_entries cfg (format_fq_entry cfg st e).1 es

/-- The file loop of `format_fq`: each inner list stands for the records of
one input file that survived `parse_fastqs`; a raised stop flag abandons
all remaining files (the `return` exits the whole function). -/
def format_fq_files (cfg : DriverCfg) : DriverState → List (List FastxRecord) → DriverState × Bool
  | st, [] => (st, false)
  | st, f :: fs =>
    if (format_fq_entries cfg st f).2 = true then ((format_fq_entries cfg st f).1, true)
    else format_fq_files cfg (format_fq_entries cfg st f).1 fs

/-- One whole `format_fq` run of the write loop, from the initial state. -/
def format_fq_run (cfg : DriverCfg) (files : List (List FastxRecord)) : DriverState × Bool :=
  format_fq_files cfg initDriverState files

deriving instance DecidableEq for Except

/-- One step of the running minimum computed by `compare_start_time`: the
`0` sentinel (`none`) is replaced by the first time seen, afterwards the
smaller value is kept. -/
def dtMinAcc (acc : Option PyDateTime) (t : PyDateTime) : PyDateTime :=
  match acc with
  | none => t
  | some m => if dtLe m t then m else t

/-- A string accepted by the first `strptime` format is rejected by the
second: after the shared prefix the first format demands `Z` where the
second demands `.`. -/
theorem strptime_ab_disjoint (s : String) (t : PyDateTime) (h : strptime_a s = some t) :
    strptime_b s = none := by
  unfold strptime_a at h
  unfold strptime_b
  cases hp : parseDatePrefix s.data with
  | none => rw [hp] at h; simp at h
  | some v =>
    obtain ⟨y, mo, d, hh, mi, sec, r⟩ := v
    rw [hp] at h
    simp only [Option.bind_eq_bind, Option.some_bind] at h ⊢
    cases r with
    | nil => simp [litCI] at h
    | cons c r2 =>
      by_cases hc : c.toLower = 'Z'.toLower
      · have hdot : litCI '.' (c :: r2) = none := by
          simp only [litCI]
          rw [hc]
          simp
        rw [hdot]
        simp
      · have hz : 'Z'.toLower = 'z' := by decide
        rw [hz] at hc
        simp only [litCI] at h
        rw [hz, if_neg hc] at h
        simp at h

/-- Claim C9: the timestamp parser first attempts `%Y-%m-%dT%H:%M:%SZ`;
only if that fails does it attempt the fractional-seconds-with-offset
format `%Y-%m-%dT%H:%M:%S.%f%z` (discarding the offset); a string matching
neither format raises a parse error.  The two formats are mutually
exclusive, and the concrete conjuncts exercise each of the three paths. -/
theorem C9_parse_timestamp (s : String) (t : PyDateTime) :
    (parse_timestamp s = .ok t ↔
      (strptime_a s = some t ∨ (strptime_a s = none ∧ strptime_b s = some t))) ∧
    (parse_timestamp s = .error TimeErr.badTimestamp ↔
      (strptime_a s = none ∧ strptime_b s = none)) ∧
    (strptime_a s = some t → strptime_b s = none) ∧
    parse_timestamp "2021-03-04T05:06:07Z" = .ok ⟨2021, 3, 4, 5, 6, 7, 0⟩ ∧
    strptime_a "2021-03-04T05:06:07.250000+01:00" = none ∧
    parse_timestamp "2021-03-04T05:06:07.250000+01:00" = .ok ⟨2021, 3, 4, 5, 6, 7, 250000⟩ ∧
    parse_timestamp "not-a-time" = .error TimeErr.badTimestamp := by
  refine ⟨?_, ?_, strptime_ab_disjoint s t, by decide, by decide, by decide, by decide⟩
  · unfold parse_timestamp
    cases ha : strptime_a s with
    | some t0 => simp
    | none =>
      cases hb : strptime_b s with
      | some t0 => simp
      | none => simp
  · unfold parse_timestamp
    cases ha : strptime_a s with
    | some t0 => simp
    | none =>
      cases hb : strptime_b s with
      | some t0 => simp
      | none => simp

/-- Witness for C9 at a concrete input: the format-(a) string
`2021-03-04T05:06:07Z` is rejected by format (b) (via the mutual-exclusion
conjunct) and parses through format (a). -/
theorem C9_parse_timestamp_witness :
    strptime_b "2021-03-04T05:06:07Z" = none ∧
    parse_timestamp "2021-03-04T05:06:07Z" = .ok ⟨2021, 3, 4, 5, 6, 7, 0⟩ :=
  ⟨(C9_parse_timestamp "2021-03-04T05:06:07Z" ⟨2021, 3, 4, 5, 6, 7, 0⟩).2.2.1 (by decide),
   (C9_parse_timestamp "2021-03-04T05:06:07Z" ⟨2021, 3, 4, 5, 6, 7, 0⟩).2.2.2.1⟩

/-- Claim C2: with both window bounds unset the time predicate accepts
every record without reading its annotation; with at least one bound set a
record passes iff its acquisition time is at or below `max_time` (when
set) and at or above `min_time` (when set); in particular a time equal to
`max_time` is accepted and one strictly greater is rejected. -/
theorem C2_time_window (c : Option String) (mx mn : Option PyDateTime) (t M : PyDateTime)
    (ht : read_start_time c = .ok t) :
    (∀ c2 : Option String, check_seq_time c2 none none = .ok true) ∧
    ((mx ≠ none ∨ mn ≠ none) →
      (check_seq_time c mx mn = .ok true ↔
        (∀ M2, mx = some M2 → dtLe t M2 = true) ∧ (∀ m2, mn = some m2 → dtLe m2 t = true))) ∧
    check_seq_time c (some t) none = .ok true ∧
    (dtLe t M = false → check_seq_time c (some M) none = .ok false) := by
  have hrefl : dtLe t t = true := by simp [dtLe]
  refine ⟨fun c2 => rfl, ?_, ?_, ?_⟩
  · intro hw
    match mx, mn with
    | none, none =>
      rcases hw with h | h
      · exact absurd rfl h
      · exact absurd rfl h
    | some M2, none =>
      simp [check_seq_time, ht, boundOkMax, boundOkMin]
    | none, some m2 =>
      simp [check_seq_time, ht, boundOkMax, boundOkMin]
    | some M2, some m2 =>
      simp [check_seq_time, ht, boundOkMax, boundOkMin]
  · simp [check_seq_time, ht, boundOkMax, boundOkMin, hrefl]
  · intro hlt
    simp [check_seq_time, ht, boundOkMax, boundOkMin, hlt]

/-- Witness for C2 at a concrete record: its annotation parses to
05:06:07, which is accepted with `max_time` equal to it and rejected with
`max_time` one second earlier. -/
theorem C2_time_window_witness :
    check_seq_time (some "start_time=2021-03-04T05:06:07Z") none none = .ok true ∧
    check_seq_time (some "start_time=2021-03-04T05:06:07Z")
      (some ⟨2021, 3, 4, 5, 6, 7, 0⟩) none = .ok true ∧
    check_seq_time (some "start_time=2021-03-04T05:06:07Z")
      (some ⟨2021, 3, 4, 5, 6, 6, 0⟩) none = .ok false := by
  have h := C2_time_window (some "start_time=2021-03-04T05:06:07Z") none none
    ⟨2021, 3, 4, 5, 6, 7, 0⟩ ⟨2021, 3, 4, 5, 6, 6, 0⟩ (by decide)
  exact ⟨h.1 _, h.2.2.1, h.2.2.2 (by decide)⟩

/-- Claim C6: when at least one window bound is active, a record whose
comment lacks a `start_time=` token (including an absent comment) makes
the time predicate raise: the error propagates instead of the record being
skipped or accepted. -/
theorem C6_missing_start_time (c : Option String) (mx mn : Option PyDateTime) (err : TimeErr)
    (hw : mx ≠ none ∨ mn ≠ none) (hmiss : searchStartTime c = .error err) :
    check_seq_time c mx mn = .error err ∧
    (∀ (cfg : FilterCfg) (e2 : FastxRecord), cfg.min_len = 0 → cfg.min_qscore = 0 →
      cfg.max_start_time = mx → cfg.min_start_time = mn → e2.comment = c →
      parse_fastqs_step cfg e2 = .error err) := by
  have hread : read_start_time c = .error err := by
    unfold read_start_time
    rw [hmiss]
  have hcheck : check_seq_time c mx mn = .error err := by
    match mx, mn with
    | none, none =>
      rcases hw with h | h
      · exact absurd rfl h
      · exact absurd rfl h
    | some M2, none => simp [check_seq_time, hread]
    | none, some m2 => simp [check_seq_time, hread]
    | some M2, some m2 => simp [check_seq_time, hread]
  refine ⟨hcheck, ?_⟩
  intro cfg e2 h1 h2 h3 h4 h5
  have hc1 : ¬(cfg.min_len ≠ 0 ∧ e2.sequence.length < cfg.min_len) := by simp [h1]
  have hc2 : ¬(cfg.min_qscore ≠ 0 ∧
      _compute_mean_qscore e2.quality < (cfg.min_qscore : ℝ)) := by simp [h2]
  unfold parse_fastqs_step
  rw [if_neg hc1, if_neg hc2, h3, h4, h5, hcheck]

/-- Witness for C6: a comment with no `start_time=` token errors under an
active upper bound, and so does an absent comment. -/
theorem C6_missing_start_time_witness :
    check_seq_time (some "length=50") (some ⟨2021, 3, 4, 5, 6, 7, 0⟩) none
      = .error TimeErr.noStartTime ∧
    check_seq_time none none (some ⟨2021, 3, 4, 5, 6, 7, 0⟩) = .error TimeErr.noComment ∧
    parse_fastqs_step ⟨0, 0, some ⟨2021, 3, 4, 5, 6, 7, 0⟩, none, CommentsMode.wrap, none⟩
      ⟨ "r1", "ACGT", [], some "length=50"⟩ = .error TimeErr.noStartTime :=
  ⟨(C6_missing_start_time (some "length=50") (some ⟨2021, 3, 4, 5, 6, 7, 0⟩) none
      TimeErr.noStartTime (Or.inl (by decide)) (by decide)).1,
   (C6_missing_start_time none none (some ⟨2021, 3, 4, 5, 6, 7, 0⟩)
      TimeErr.noComment (Or.inr (by decide)) (by decide)).1,
   (C6_missing_start_time (some "length=50") (some ⟨2021, 3, 4, 5, 6, 7, 0⟩) none
      TimeErr.noStartTime (Or.inl (by decide)) (by decide)).2
     ⟨0, 0, some ⟨2021, 3, 4, 5, 6, 7, 0⟩, none, CommentsMode.wrap, none⟩
     ⟨ "r1", "ACGT", [], some "length=50"⟩ rfl rfl rfl rfl rfl⟩

/-- Membership characterisation of the channel-set fold: when every token
parses, the fold succeeds and its result holds exactly the accumulator
members plus the members of each parsed range. -/
theorem get_channels_set_aux_ok (l : List String) (acc : Finset Nat)
    (hok : ∀ e ∈ l, chOk (_parse_channels_input e) = true) :
    ∃ S, get_channels_set_aux l acc = .ok S ∧
      ∀ y, y ∈ S ↔ (y ∈ acc ∨ ∃ e ∈ l, ∃ r, _parse_channels_input e = .ok r ∧ y ∈ r) := by
  induction l generalizing acc with
  | nil => exact ⟨acc, rfl, by simp⟩
  | cons e es ih =>
    have he : chOk (_parse_channels_input e) = true := hok e (by simp)
    cases hp : _parse_channels_input e with
    | error err => rw [hp] at he; simp [chOk] at he
    | ok r =>
      have hok2 : ∀ e2 ∈ es, chOk (_parse_channels_input e2) = true :=
        fun e2 h2 => hok e2 (by simp [h2])
      obtain ⟨S, hS, hmem⟩ := ih (acc ∪ r.toFinset) hok2
      refine ⟨S, ?_, ?_⟩
      · unfold get_channels_set_aux
        rw [hp]
        exact hS
      · intro y
        rw [hmem y]
        simp only [Finset.mem_union, List.mem_toFinset, List.mem_cons]
        constructor
        · rintro ((hy | hy) | ⟨e2, he2, r2, hr2, hy⟩)
          · exact Or.inl hy
          · exact Or.inr ⟨e, Or.inl rfl, r, hp, hy⟩
          · exact Or.inr ⟨e2, Or.inr he2, r2, hr2, hy⟩
        · rintro (hy | ⟨e2, he2 | he2, r2, hr2, hy⟩)
          · exact Or.inl (Or.inl hy)
          · subst he2
            rw [hp] at hr2
            injection hr2 with h
            subst h
            exact Or.inl (Or.inr hy)
          · exact Or.inr ⟨e2, he2, r2, hr2, hy⟩

/-- Claim C8: the range parser maps `3` to `{3}` and `3-5` to `{3,4,5}`,
raises a range error for `5-3` and a format error for `abc`; the channel
set of a token list is the set union of the parsed ranges, so duplicate
tokens collapse and token order is irrelevant (here: for any two
permutation-equivalent token lists that all parse, the resulting sets are
equal). -/
theorem C8_channel_ranges (l l2 : List String)
    (hok : ∀ e ∈ l, chOk (_parse_channels_input e) = true)
    (hperm : l.Perm l2) :
    _parse_channels_input "3" = .ok [3] ∧
    _parse_channels_input "3-5" = .ok [3, 4, 5] ∧
    _parse_channels_input "5-3" = .error ChannelsErr.rangeErr ∧
    _parse_channels_input "abc" = .error ChannelsErr.formatErr ∧
    get_channels_set ["1", "1"] = get_channels_set ["1"] ∧
    (∃ S, get_channels_set l = .ok S ∧
      ∀ y, y ∈ S ↔ ∃ e ∈ l, ∃ r, _parse_channels_input e = .ok r ∧ y ∈ r) ∧
    get_channels_set l = get_channels_set l2 := by
  have hok2 : ∀ e ∈ l2, chOk (_parse_channels_input e) = true :=
    fun e h => hok e (hperm.mem_iff.mpr h)
  obtain ⟨S1, h1, m1⟩ := get_channels_set_aux_ok l ∅ hok
  obtain ⟨S2, h2, m2⟩ := get_channels_set_aux_ok l2 ∅ hok2
  have hSeq : S1 = S2 := by
    apply Finset.ext
    intro y
    rw [m1 y, m2 y]
    constructor
    · rintro (hy | ⟨e, he, r, hr, hy⟩)
      · simp at hy
      · exact Or.inr ⟨e, hperm.mem_iff.mp he, r, hr, hy⟩
    · rintro (hy | ⟨e, he, r, hr, hy⟩)
      · simp at hy
      · exact Or.inr ⟨e, hperm.mem_iff.mpr he, r, hr, hy⟩
  refine ⟨by decide, by decide, by decide, by decide, by decide, ⟨S1, h1, ?_⟩, ?_⟩
  · intro y
    rw [m1 y]
    simp
  · show get_channels_set_aux l ∅ = get_channels_set_aux l2 ∅
    rw [h1, h2, hSeq]

/-- Witness for C8: the token lists `["2","4-6"]` and `["4-6","2"]` all
parse and are permutations of one another, so they yield the same set,
characterised by range membership. -/
theorem C8_channel_ranges_witness :
    _parse_channels_input "3" = .ok [3] ∧
    get_channels_set ["1", "1"] = get_channels_set ["1"] ∧
    (∃ S, get_channels_set ["2", "4-6"] = .ok S ∧
      ∀ y, y ∈ S ↔ ∃ e ∈ [ "2", "4-6" ], ∃ r, _parse_channels_input e = .ok r ∧ y ∈ r) ∧
    get_channels_set ["2", "4-6"] = get_channels_set ["4-6", "2"] := by
  have h := C8_channel_ranges ["2", "4-6"] ["4-6", "2"] (by decide) (by decide)
  exact ⟨h.1, h.2.2.2.2.1, h.2.2.2.2.2.1, h.2.2.2.2.2.2⟩

/-- The channel scan skips a leading non-whitespace character. -/
theorem scanCh_cons_not_ws (c : Char) (l : List Char) (hc : c.isWhitespace = false) :
    scanCh (c :: l) = scanCh l := by
  simp [scanCh, hc]

/-- Mode `forward` leaves the comment unchanged. -/
theorem rewrite_comment_forward (c : Option String) :
    rewrite_comment CommentsMode.forward c = c := by
  simp [rewrite_comment]

/-- Mode `wrap` prefixes a non-empty comment with `CO:Z:`. -/
theorem rewrite_comment_wrap (s : String) (hs : s ≠ "") :
    rewrite_comment CommentsMode.wrap (some s) = some ( "CO:Z:" ++ s) := by
  simp [rewrite_comment, commentTruthy, hs]

/-- Channel extraction from a wrapped comment reduces to the
whitespace-anchored scan of the original comment: the `CO:Z:` prefix
defeats the start-of-string anchor and none of its characters is
whitespace. -/
theorem get_channel_wrap (s : String) :
    get_channel_from_comment (some ( "CO:Z:" ++ s)) = scanCh s.data := by
  have hdata : ( "CO:Z:" ++ s).data = 'C' :: 'O' :: ':' :: 'Z' :: ':' :: s.data := rfl
  have hne : ( "CO:Z:" ++ s) ≠ "" := by
    intro h
    have h2 := congrArg String.data h
    rw [hdata] at h2
    simp at h2
  simp only [get_channel_from_comment]
  rw [if_neg hne, hdata]
  have h5 : chHere ('C' :: 'O' :: ':' :: 'Z' :: ':' :: s.data) = none := rfl
  rw [h5]
  rw [scanCh_cons_not_ws 'C' _ (by decide), scanCh_cons_not_ws 'O' _ (by decide),
    scanCh_cons_not_ws ':' _ (by decide), scanCh_cons_not_ws 'Z' _ (by decide),
    scanCh_cons_not_ws ':' _ (by decide)]

/-- With the length and quality thresholds unset (`0`), the filter-chain
step reduces to the time test followed by the rewrite-and-channel tail. -/
theorem parse_fastqs_step_no_len_qual (cfg : FilterCfg) (entry : FastxRecord)
    (h1 : cfg.min_len = 0) (h2 : cfg.min_qscore = 0) :
    parse_fastqs_step cfg entry =
      match check_seq_time entry.comment cfg.max_start_time cfg.min_start_time with
      | .error e => .error e
      | .ok false => .ok none
      | .ok true => .ok (parse_fastqs_tail cfg entry) := by
  have hc1 : ¬(cfg.min_len ≠ 0 ∧ entry.sequence.length < cfg.min_len) := by simp [h1]
  have hc2 : ¬(cfg.min_qscore ≠ 0 ∧
      _compute_mean_qscore entry.quality < (cfg.min_qscore : ℝ)) := by simp [h2]
  unfold parse_fastqs_step
  rw [if_neg hc1, if_neg hc2]

/-- Claim C1 counterexample: a record whose annotation is exactly
`ch=3 start_time=x` carries channel 3, yet after the `wrap` rewrite the
channel regex no longer matches (the `ch=` token is preceded by `:` rather
than start-of-string or whitespace), so with the ChannelSet `{3}` the
filter chain rejects the record instead of accepting it. -/
theorem C1_counterexample :
    get_channel_from_comment (some "ch=3 start_time=x") = some 3 ∧
    rewrite_comment CommentsMode.wrap (some "ch=3 start_time=x") = some "CO:Z:ch=3 start_time=x" ∧
    get_channel_from_comment (some "CO:Z:ch=3 start_time=x") = none ∧
    parse_fastqs_step ⟨0, 0, none, none, CommentsMode.wrap, some {3}⟩
      ⟨ "r1", "ACGT", [], some "ch=3 start_time=x"⟩ = .ok none := by
  refine ⟨by decide, by decide, by decide, ?_⟩
  rw [parse_fastqs_step_no_len_qual _ _ rfl rfl]
  have hct : check_seq_time (some "ch=3 start_time=x") none none = .ok true := rfl
  rw [hct]
  decide

/-- Claim C1 (amended): in mode `forward` the rewrite leaves every
annotation unchanged, so the channel extraction is unchanged.  In mode
`wrap` the extraction on the rewritten annotation `CO:Z:<original>` equals
the whitespace-anchored scan of the original annotation: a channel token
preceded by whitespace is still found (in particular the extracted id is
unchanged whenever the annotation does not begin with `ch=<digits>`),
while a start-of-string-anchored leading token is no longer found and the
extraction falls back to the first whitespace-preceded token, if any.  In
every mode the record passes the channel check exactly when the
post-rewrite extraction yields a member of the configured ChannelSet: it
is yielded by the chain when that id is a member and dropped when the
rewritten annotation is rejected. -/
theorem C1_channel_after_rewrite (s nm sq : String) (ql : List Nat) (S : Finset Nat)
    (mode : CommentsMode) (c : Nat) (hs : s ≠ "") :
    (∀ c2 : Option String, rewrite_comment CommentsMode.forward c2 = c2) ∧
    get_channel_from_comment (rewrite_comment CommentsMode.wrap (some s)) = scanCh s.data ∧
    (chHere s.data = none →
      get_channel_from_comment (rewrite_comment CommentsMode.wrap (some s)) =
        get_channel_from_comment (some s)) ∧
    (∀ cm : Option String, channelRejected (some S) cm = false ↔
      ∃ c2, get_channel_from_comment cm = some c2 ∧ c2 ∈ S) ∧
    (get_channel_from_comment (rewrite_comment mode (some s)) = some c → c ∈ S →
      parse_fastqs_step ⟨0, 0, none, none, mode, some S⟩ ⟨nm, sq, ql, some s⟩ =
        .ok (some ⟨nm, sq, ql, rewrite_comment mode (some s)⟩)) ∧
    (channelRejected (some S) (rewrite_comment mode (some s)) = true →
      parse_fastqs_step ⟨0, 0, none, none, mode, some S⟩ ⟨nm, sq, ql, some s⟩ = .ok none) := by
  have hwrap : get_channel_from_comment (rewrite_comment CommentsMode.wrap (some s)) =
      scanCh s.data := by
    rw [rewrite_comment_wrap s hs, get_channel_wrap]
  have hiff : ∀ cm : Option String, channelRejected (some S) cm = false ↔
      ∃ c2, get_channel_from_comment cm = some c2 ∧ c2 ∈ S := by
    intro cm
    unfold channelRejected
    cases hch : get_channel_from_comment cm with
    | none => simp
    | some c2 => simp
  refine ⟨rewrite_comment_forward, hwrap, ?_, hiff, ?_, ?_⟩
  · intro hlead
    rw [hwrap]
    have horig : get_channel_from_comment (some s) = scanCh s.data := by
      simp only [get_channel_from_comment]
      rw [if_neg hs, hlead]
    rw [horig]
  · intro hc hcS
    rw [parse_fastqs_step_no_len_qual _ _ rfl rfl]
    have hct : check_seq_time (some s) none none = .ok true := rfl
    rw [hct]
    have hrejfalse : channelRejected (some S) (rewrite_comment mode (some s)) = false :=
      (hiff _).mpr ⟨c, hc, hcS⟩
    simp [parse_fastqs_tail, hrejfalse]
  · intro hrej
    rw [parse_fastqs_step_no_len_qual _ _ rfl rfl]
    have hct : check_seq_time (some s) none none = .ok true := rfl
    rw [hct]
    simp [parse_fastqs_tail, hrej]

/-- Witness for the amended C1: for the annotation `ch=3 ch=7` (which
begins with a channel token) the wrap rewrite extraction equals the
whitespace-anchored scan, the record is yielded with ChannelSet `{7}` (the
second, whitespace-preceded token survives) and dropped with `{3}` (the
leading token is lost); for `runid=7 ch=42 y` the extraction is unchanged
by the rewrite. -/
theorem C1_channel_after_rewrite_witness :
    rewrite_comment CommentsMode.forward (some "ch=3 ch=7") = some "ch=3 ch=7" ∧
    get_channel_from_comment (rewrite_comment CommentsMode.wrap (some "ch=3 ch=7")) =
      scanCh "ch=3 ch=7".data ∧
    get_channel_from_comment (rewrite_comment CommentsMode.wrap (some "runid=7 ch=42 y")) =
      get_channel_from_comment (some "runid=7 ch=42 y") ∧
    parse_fastqs_step ⟨0, 0, none, none, CommentsMode.wrap, some {7}⟩
      ⟨ "r1", "ACGT", [], some "ch=3 ch=7"⟩ =
      .ok (some ⟨ "r1", "ACGT", [], rewrite_comment CommentsMode.wrap (some "ch=3 ch=7")⟩) ∧
    parse_fastqs_step ⟨0, 0, none, none, CommentsMode.wrap, some {3}⟩
      ⟨ "r1", "ACGT", [], some "ch=3 ch=7"⟩ = .ok none := by
  have h1 := C1_channel_after_rewrite "ch=3 ch=7" "r1" "ACGT" [] {7}
    CommentsMode.wrap 7 (by decide)
  have h2 := C1_channel_after_rewrite "runid=7 ch=42 y" "r1" "ACGT" [] {42}
    CommentsMode.wrap 42 (by decide)
  have h3 := C1_channel_after_rewrite "ch=3 ch=7" "r1" "ACGT" [] {3}
    CommentsMode.wrap 7 (by decide)
  exact ⟨h1.1 _, h1.2.1, h2.2.2.1 (by decide), h1.2.2.2.2.1 (by decide) (by decide),
    h3.2.2.2.2.2 (by decide)⟩

/-- The timestamp order is reflexive. -/
theorem dtLe_refl (a : PyDateTime) : dtLe a a = true := by
  simp [dtLe]

/-- The timestamp order is transitive. -/
theorem dtLe_trans (a b c : PyDateTime) (h1 : dtLe a b = true) (h2 : dtLe b c = true) :
    dtLe a c = true := by
  simp [dtLe] at h1 h2 ⊢
  omega

/-- The timestamp order is total. -/
theorem dtLe_total (a b : PyDateTime) (h : dtLe a b = false) : dtLe b a = true := by
  simp [dtLe] at h ⊢
  omega

/-- When the extraction succeeds, `compare_start_time` computes one
running-minimum step. -/
theorem compare_start_time_ok (c : Option String) (t : PyDateTime) (acc : Option PyDateTime)
    (h : read_start_time c = .ok t) :
    compare_start_time c acc = .ok (dtMinAcc acc t) := by
  unfold compare_start_time
  rw [h]
  cases acc with
  | none => rfl
  | some m => cases hdt : dtLe m t <;> simp [dtMinAcc, hdt]

/-- When every extraction succeeds, the per-file loop of `get_start_time`
is the fold of the running minimum. -/
theorem get_start_time_entries_ok (times : FastxRecord → PyDateTime) (es : List FastxRecord)
    (acc : Option PyDateTime)
    (h : ∀ r ∈ es, read_start_time r.comment = .ok (times r)) :
    get_start_time_entries es acc =
      .ok (es.foldl (fun a r => some (dtMinAcc a (times r))) acc) := by
  induction es generalizing acc with
  | nil => rfl
  | cons e es ih =>
    have he := h e (by simp)
    unfold get_start_time_entries
    rw [compare_start_time_ok e.comment (times e) acc he]
    exact ih _ (fun r hr => h r (by simp [hr]))

/-- When every extraction succeeds, the file loop of `get_start_time` is
the fold of the running minimum over the concatenated record stream. -/
theorem get_start_time_files_ok (times : FastxRecord → PyDateTime) (fs : List (List FastxRecord))
    (acc : Option PyDateTime)
    (h : ∀ f ∈ fs, ∀ r ∈ f, read_start_time r.comment = .ok (times r)) :
    get_start_time_files fs acc =
      .ok (fs.flatten.foldl (fun a r => some (dtMinAcc a (times r))) acc) := by
  induction fs generalizing acc with
  | nil => rfl
  | cons f fs ih =>
    unfold get_start_time_files
    rw [get_start_time_entries_ok times f acc (h f (by simp))]
    show get_start_time_files fs (f.foldl (fun a r => some (dtMinAcc a (times r))) acc) =
      .ok ((f :: fs).flatten.foldl (fun a r => some (dtMinAcc a (times r))) acc)
    rw [ih _ (fun f2 hf2 r hr => h f2 (by simp [hf2]) r hr)]
    simp [List.foldl_append]

/-- The running-minimum fold started at a concrete value yields a member
of the inputs or the start value, below all of them. -/
theorem foldl_dtMinAcc_some (ts : List PyDateTime) (a : PyDateTime) :
    ∃ m, ts.foldl (fun acc t => some (dtMinAcc acc t)) (some a) = some m ∧
      (m = a ∨ m ∈ ts) ∧ dtLe m a = true ∧ ∀ t ∈ ts, dtLe m t = true := by
  induction ts generalizing a with
  | nil => exact ⟨a, rfl, Or.inl rfl, dtLe_refl a, by simp⟩
  | cons t ts ih =>
    obtain ⟨m, hm, hmem, hma2, hall⟩ := ih (dtMinAcc (some a) t)
    have hstep : (t :: ts).foldl (fun acc t => some (dtMinAcc acc t)) (some a) =
        ts.foldl (fun acc t => some (dtMinAcc acc t)) (some (dtMinAcc (some a) t)) := rfl
    cases hdt : dtLe a t with
    | true =>
      have hacc : dtMinAcc (some a) t = a := by simp [dtMinAcc, hdt]
      rw [hacc] at hm hma2
      refine ⟨m, by rw [hstep, hacc]; exact hm, ?_, hma2, ?_⟩
      · rcases hmem with hmem | hmem
        · rw [hacc] at hmem
          exact Or.inl hmem
        · exact Or.inr (by simp [hmem])
      · intro t2 ht2
        rcases List.mem_cons.mp ht2 with ht2 | ht2
        · subst ht2
          exact dtLe_trans m a t2 hma2 hdt
        · exact hall t2 ht2
    | false =>
      have hacc : dtMinAcc (some a) t = t := by simp [dtMinAcc, hdt]
      rw [hacc] at hm hma2
      refine ⟨m, by rw [hstep, hacc]; exact hm, ?_, ?_, ?_⟩
      · rcases hmem with hmem | hmem
        · rw [hacc] at hmem
          exact Or.inr (by simp [hmem])
        · exact Or.inr (by simp [hmem])
      · exact dtLe_trans m t a hma2 (dtLe_total a t hdt)
      · intro t2 ht2
        rcases List.mem_cons.mp ht2 with ht2 | ht2
        · subst ht2
          exact hma2
        · exact hall t2 ht2

/-- Claim C5: the auto-start pre-pass streams every record of every input
file with no filtering, extracts each acquisition time from the
`start_time=` annotation token, and returns the minimum over all records
encountered: the result is the time of some record and is at or below the
time of every record. -/
theorem C5_min_start_time (files : List (List FastxRecord)) (times : FastxRecord → PyDateTime)
    (h : ∀ f ∈ files, ∀ r ∈ f, read_start_time r.comment = .ok (times r))
    (hne : files.flatten ≠ []) :
    ∃ m, get_start_time files = .ok (some m) ∧
      m ∈ files.flatten.map times ∧ ∀ t ∈ files.flatten.map times, dtLe m t = true := by
  have hfold := get_start_time_files_ok times files none h
  cases hj : files.flatten with
  | nil => exact absurd hj hne
  | cons r0 rs =>
    rw [hj] at hfold
    have hfirst : (r0 :: rs).foldl (fun a r => some (dtMinAcc a (times r))) none =
        rs.foldl (fun a r => some (dtMinAcc a (times r))) (some (times r0)) := rfl
    rw [hfirst] at hfold
    have hmap : rs.foldl (fun a r => some (dtMinAcc a (times r))) (some (times r0)) =
        (rs.map times).foldl (fun a t => some (dtMinAcc a t)) (some (times r0)) := by
      rw [List.foldl_map]
    rw [hmap] at hfold
    obtain ⟨m, hm, hmem, hm0, hall⟩ := foldl_dtMinAcc_some (rs.map times) (times r0)
    rw [hm] at hfold
    refine ⟨m, hfold, ?_, ?_⟩
    · rcases hmem with hmem | hmem
      · subst hmem
        simp
      · simp only [List.map_cons, List.mem_cons]
        exact Or.inr hmem
    · intro t ht
      rcases List.mem_cons.mp ht with ht | ht
      · subst ht
        exact hm0
      · exact hall t ht

/-- Witness for C5: two files with one record each; the pre-pass returns
the earlier of the two times, which bounds both. -/
theorem C5_min_start_time_witness :
    ∃ m, get_start_time
        [[⟨ "a", "A", [], some "start_time=2021-03-04T05:06:07Z"⟩],
         [⟨ "b", "A", [], some "start_time=2020-01-01T00:00:00Z"⟩]] = .ok (some m) ∧
      m ∈ ([[⟨ "a", "A", [], some "start_time=2021-03-04T05:06:07Z"⟩],
         [⟨ "b", "A", [], some "start_time=2020-01-01T00:00:00Z"⟩]] :
          List (List FastxRecord)).flatten.map
        (fun r => if r.name = "a" then (⟨2021, 3, 4, 5, 6, 7, 0⟩ : PyDateTime)
          else ⟨2020, 1, 1, 0, 0, 0, 0⟩) ∧
      ∀ t ∈ ([[⟨ "a", "A", [], some "start_time=2021-03-04T05:06:07Z"⟩],
         [⟨ "b", "A", [], some "start_time=2020-01-01T00:00:00Z"⟩]] :
          List (List FastxRecord)).flatten.map
        (fun r => if r.name = "a" then (⟨2021, 3, 4, 5, 6, 7, 0⟩ : PyDateTime)
          else ⟨2020, 1, 1, 0, 0, 0, 0⟩), dtLe m t = true :=
  C5_min_start_time
    [[⟨ "a", "A", [], some "start_time=2021-03-04T05:06:07Z"⟩],
     [⟨ "b", "A", [], some "start_time=2020-01-01T00:00:00Z"⟩]]
    (fun r => if r.name = "a" then ⟨2021, 3, 4, 5, 6, 7, 0⟩ else ⟨2020, 1, 1, 0, 0, 0, 0⟩)
    (by intro f hf r hr; fin_cases hf <;> fin_cases hr <;> decide)
    (by decide)

/-- Claim C7: on a non-empty list of scores (each within the 100-entry
table) the estimator returns the phred score whose error probability
`10 ^ (-q/10)` equals the arithmetic mean of the individual error
probabilities; a uniform list of score `q` yields exactly `q`; the empty
list yields `0.0`. -/
theorem C7_mean_qscore (l : List Nat) (q n : Nat)
    (hl : l ≠ []) (hb : ∀ x ∈ l, x ≤ 99) (hq : q ≤ 99) :
    _compute_mean_qscore [] = 0 ∧
    (10 : ℝ) ^ (-(0.1 : ℝ) * _compute_mean_qscore l) = ((l.map LOOKUP).sum) / l.length ∧
    _compute_mean_qscore (List.replicate (n + 1) q) = q := by
  have h10 : (0 : ℝ) < 10 := by norm_num
  have h10ne : (10 : ℝ) ≠ 1 := by norm_num
  refine ⟨by simp [_compute_mean_qscore], ?_, ?_⟩
  · have hsum : 0 < (l.map LOOKUP).sum := by
      apply List.sum_pos
      · intro x hx
        obtain ⟨a, ha, rfl⟩ := List.mem_map.mp hx
        exact Real.rpow_pos_of_pos h10 _
      · simpa using hl
    have hlenn : 0 < l.length := List.length_pos.mpr hl
    have hlen : 0 < (l.length : ℝ) := by exact_mod_cast hlenn
    have hm : 0 < (l.map LOOKUP).sum / l.length := div_pos hsum hlen
    have hunf : _compute_mean_qscore l =
        -10 * Real.logb 10 ((l.map LOOKUP).sum / l.length) := by
      simp [_compute_mean_qscore, hl]
    rw [hunf]
    have harg : -(0.1 : ℝ) * (-10 * Real.logb 10 ((l.map LOOKUP).sum / l.length)) =
        Real.logb 10 ((l.map LOOKUP).sum / l.length) := by ring
    rw [harg]
    exact Real.rpow_logb h10 h10ne hm
  · have hrne : List.replicate (n + 1) q ≠ [] := by simp
    have hunf : _compute_mean_qscore (List.replicate (n + 1) q) =
        -10 * Real.logb 10
          (((List.replicate (n + 1) q).map LOOKUP).sum / (List.replicate (n + 1) q).length) := by
      simp [_compute_mean_qscore, hrne]
    rw [hunf, List.map_replicate, List.sum_replicate, List.length_replicate]
    have hmean : ((n + 1) • LOOKUP q) / ((n + 1 : Nat) : ℝ) = LOOKUP q := by
      rw [nsmul_eq_mul]
      have hne : ((n + 1 : Nat) : ℝ) ≠ 0 := by positivity
      field_simp
    rw [hmean]
    unfold LOOKUP
    rw [Real.logb_rpow h10 h10ne]
    ring

/-- Witness for C7: the error probability of the estimate for `[3, 7]` is
the mean of the two error probabilities, and two copies of score 7
estimate exactly 7. -/
theorem C7_mean_qscore_witness :
    _compute_mean_qscore [] = 0 ∧
    (10 : ℝ) ^ (-(0.1 : ℝ) * _compute_mean_qscore [3, 7]) =
      (([3, 7].map LOOKUP).sum) / ([3, 7] : List Nat).length ∧
    _compute_mean_qscore (List.replicate 2 7) = 7 := by
  have h := C7_mean_qscore [3, 7] 7 1 (by decide) (by decide) (by decide)
  exact ⟨h.1, h.2.1, by exact_mod_cast h.2.2⟩

/-- Record counter after a write. -/
theorem writeEntry_n (cfg : DriverCfg) (st : DriverState) (e : FastxRecord) :
    (writeEntry cfg st e).n = st.n + 1 := rfl

/-- Base counter after a write. -/
theorem writeEntry_nbp (cfg : DriverCfg) (st : DriverState) (e : FastxRecord) :
    (writeEntry cfg st e).n_bp = st.n_bp + e.sequence.length := rfl

/-- Output after a write. -/
theorem writeEntry_out (cfg : DriverCfg) (st : DriverState) (e : FastxRecord) :
    (writeEntry cfg st e).out = st.out ++ [e] := rfl

/-- Dedup set after a write. -/
theorem writeEntry_read_ids (cfg : DriverCfg) (st : DriverState) (e : FastxRecord) :
    (writeEntry cfg st e).read_ids =
      if cfg.dedup then insert e.name st.read_ids else st.read_ids := rfl

/-- With deduplication off and no allow-list, every record reaching the
write loop is written. -/
theorem format_fq_entry_write (cfg : DriverCfg) (st : DriverState) (e : FastxRecord)
    (hd : cfg.dedup = false) (hk : cfg.keep_ids = none) :
    format_fq_entry cfg st e = (writeEntry cfg st e, stopCond cfg (writeEntry cfg st e)) := by
  have h1 : dedupRejected cfg st e.name = false := by simp [dedupRejected, hd]
  have h2 : allowRejected cfg.keep_ids e.name = false := by simp [allowRejected, hk]
  unfold format_fq_entry
  rw [h1, h2]
  simp

/-- Once the stop flag is raised, the per-file loop ignores any records
appended after the stopping point. -/
theorem format_fq_entries_append (cfg : DriverCfg) (st : DriverState) (l l2 : List FastxRecord)
    (h : (format_fq_entries cfg st l).2 = true) :
    format_fq_entries cfg st (l ++ l2) = format_fq_entries cfg st l := by
  induction l generalizing st with
  | nil => simp [format_fq_entries] at h
  | cons e es ih =>
    rw [List.cons_append]
    unfold format_fq_entries at h ⊢
    cases hp : (format_fq_entry cfg st e).2 with
    | true => simp
    | false =>
      rw [hp] at h
      simp only [Bool.false_eq_true, if_false] at h ⊢
      exact ih _ h

/-- Once the stop flag is raised, the file loop ignores any files appended
after the stopping point: the `return` aborts the entire run. -/
theorem format_fq_files_append (cfg : DriverCfg) (st : DriverState)
    (files extra : List (List FastxRecord))
    (h : (format_fq_files cfg st files).2 = true) :
    format_fq_files cfg st (files ++ extra) = format_fq_files cfg st files := by
  induction files generalizing st with
  | nil => simp [format_fq_files] at h
  | cons f fs ih =>
    rw [List.cons_append]
    unfold format_fq_files at h ⊢
    cases hp : (format_fq_entries cfg st f).2 with
    | true => simp
    | false =>
      rw [hp] at h
      simp only [Bool.false_eq_true, if_false] at h ⊢
      exact ih _ h

/-- A write that pushes the cumulative base count over a configured
`max_bp` raises the stop flag. -/
theorem format_fq_entry_bp_stop (cfg : DriverCfg) (st : DriverState) (e : FastxRecord)
    (hbp : cfg.max_bp ≠ 0)
    (h1 : dedupRejected cfg st e.name = false)
    (h2 : allowRejected cfg.keep_ids e.name = false)
    (h3 : cfg.max_bp < st.n_bp + e.sequence.length) :
    (format_fq_entry cfg st e).2 = true := by
  unfold format_fq_entry
  rw [h1, h2]
  simp [stopCond, writeEntry_nbp]
  exact Or.inr ⟨hbp, h3⟩



/-- A raised stop flag on the head record ends the per-file loop. -/
theorem format_fq_entries_cons_stop (cfg : DriverCfg) (st : DriverState) (e : FastxRecord)
    (es : List FastxRecord) (h : (format_fq_entry cfg st e).2 = true) :
    format_fq_entries cfg st (e :: es) = ((format_fq_entry cfg st e).1, true) := by
  unfold format_fq_entries
  rw [if_pos h]

/-- Without a stop flag the per-file loop continues on the tail. -/
theorem format_fq_entries_cons_go (cfg : DriverCfg) (st : DriverState) (e : FastxRecord)
    (es : List FastxRecord) (h : (format_fq_entry cfg st e).2 = false) :
    format_fq_entries cfg st (e :: es) =
      format_fq_entries cfg (format_fq_entry cfg st e).1 es := by
  conv_lhs => unfold format_fq_entries
  rw [if_neg (by simp [h])]

/-- A raised stop flag on the head file ends the file loop. -/
theorem format_fq_files_cons_stop (cfg : DriverCfg) (st : DriverState) (f : List FastxRecord)
    (fs : List (List FastxRecord)) (h : (format_fq_entries cfg st f).2 = true) :
    format_fq_files cfg st (f :: fs) = ((format_fq_entries cfg st f).1, true) := by
  unfold format_fq_files
  rw [if_pos h]

/-- Without a stop flag the file loop continues on the remaining files. -/
theorem format_fq_files_cons_go (cfg : DriverCfg) (st : DriverState) (f : List FastxRecord)
    (fs : List (List FastxRecord)) (h : (format_fq_entries cfg st f).2 = false) :
    format_fq_files cfg st (f :: fs) =
      format_fq_files cfg (format_fq_entries cfg st f).1 fs := by
  conv_lhs => unfold format_fq_files
  rw [if_neg (by simp [h])]

/-- Per-file counting under a pure record-count cap (dedup off, no
allow-list, `max_bp` unset, `max_n = N > 0`): writes proceed one per
record and the loop stops exactly when the counter reaches `N`; the output
length always equals the counter. -/
theorem format_fq_entries_count (cfg : DriverCfg) (N : Nat) (es : List FastxRecord)
    (st : DriverState)
    (hd : cfg.dedup = false) (hk : cfg.keep_ids = none) (hbp : cfg.max_bp = 0)
    (hN : cfg.max_n = N) (hNpos : 0 < N)
    (hn : st.n < N) (hout : st.out.length = st.n) :
    (format_fq_entries cfg st es).1.out.length = (format_fq_entries cfg st es).1.n ∧
    (if st.n + es.length < N
     then (format_fq_entries cfg st es).1.n = st.n + es.length ∧
          (format_fq_entries cfg st es).2 = false
     else (format_fq_entries cfg st es).1.n = N ∧ (format_fq_entries cfg st es).2 = true) := by
  have hNne : N ≠ 0 := by omega
  induction es generalizing st with
  | nil =>
    unfold format_fq_entries
    refine ⟨hout, ?_⟩
    rw [if_pos (by simpa using hn)]
    exact ⟨rfl, rfl⟩
  | cons e es ih =>
    have hwn : (writeEntry cfg st e).n = st.n + 1 := writeEntry_n cfg st e
    have hwo : (writeEntry cfg st e).out.length = (writeEntry cfg st e).n := by
      rw [writeEntry_out, writeEntry_n]
      simp [hout]
    by_cases hreach : N ≤ st.n + 1
    · have hflag : stopCond cfg (writeEntry cfg st e) = true := by
        simp only [stopCond, writeEntry_n, hN, hbp, decide_eq_true_eq]
        exact Or.inl ⟨hNne, hreach⟩
      have h2 : (format_fq_entry cfg st e).2 = true := by
        rw [format_fq_entry_write cfg st e hd hk]
        exact hflag
      have hstep : format_fq_entries cfg st (e :: es) = (writeEntry cfg st e, true) := by
        rw [format_fq_entries_cons_stop cfg st e es h2, format_fq_entry_write cfg st e hd hk]
      rw [hstep]
      refine ⟨hwo, ?_⟩
      rw [if_neg (by simp only [List.length_cons]; omega)]
      refine ⟨?_, rfl⟩
      show (writeEntry cfg st e).n = N
      rw [hwn]
      omega
    · have hflag : stopCond cfg (writeEntry cfg st e) = false := by
        simp only [stopCond, writeEntry_n, hN, hbp, decide_eq_false_iff_not]
        rintro (⟨h1, h2⟩ | ⟨h1, h2⟩)
        · exact hreach h2
        · exact h1 rfl
      have h2 : (format_fq_entry cfg st e).2 = false := by
        rw [format_fq_entry_write cfg st e hd hk]
        exact hflag
      have hstep : format_fq_entries cfg st (e :: es) =
          format_fq_entries cfg (writeEntry cfg st e) es := by
        rw [format_fq_entries_cons_go cfg st e es h2, format_fq_entry_write cfg st e hd hk]
      rw [hstep]
      obtain ⟨ho, hif⟩ := ih (writeEntry cfg st e) (by rw [hwn]; omega) hwo
      refine ⟨ho, ?_⟩
      rw [hwn] at hif
      by_cases hlt : st.n + (e :: es).length < N
      · rw [if_pos hlt]
        rw [if_pos (by simp only [List.length_cons] at hlt; omega)] at hif
        refine ⟨?_, hif.2⟩
        rw [hif.1]
        simp only [List.length_cons]
        omega
      · rw [if_neg hlt]
        rw [if_neg (by simp only [List.length_cons] at hlt ⊢; omega)] at hif
        exact hif

/-- Whole-run counting under a pure record-count cap: across all files the
driver writes one record per qualifying input record until the counter
reaches `N`, at which point the stop flag is raised; the output length
equals the counter throughout. -/
theorem format_fq_files_count (cfg : DriverCfg) (N : Nat) (fs : List (List FastxRecord))
    (st : DriverState)
    (hd : cfg.dedup = false) (hk : cfg.keep_ids = none) (hbp : cfg.max_bp = 0)
    (hN : cfg.max_n = N) (hNpos : 0 < N)
    (hn : st.n < N) (hout : st.out.length = st.n) :
    (format_fq_files cfg st fs).1.out.length = (format_fq_files cfg st fs).1.n ∧
    (if st.n + (fs.map List.length).sum < N
     then (format_fq_files cfg st fs).1.n = st.n + (fs.map List.length).sum ∧
          (format_fq_files cfg st fs).2 = false
     else (format_fq_files cfg st fs).1.n = N ∧ (format_fq_files cfg st fs).2 = true) := by
  induction fs generalizing st with
  | nil =>
    unfold format_fq_files
    refine ⟨hout, ?_⟩
    rw [if_pos (by simpa using hn)]
    exact ⟨rfl, rfl⟩
  | cons f fs ih =>
    obtain ⟨ho, hif⟩ := format_fq_entries_count cfg N f st hd hk hbp hN hNpos hn hout
    by_cases hlt : st.n + f.length < N
    · rw [if_pos hlt] at hif
      have hgo : format_fq_files cfg st (f :: fs) =
          format_fq_files cfg (format_fq_entries cfg st f).1 fs :=
        format_fq_files_cons_go cfg st f fs hif.2
      rw [hgo]
      obtain ⟨ho2, hif2⟩ := ih (format_fq_entries cfg st f).1 (by rw [hif.1]; omega)
        (by rw [ho, hif.1])
      refine ⟨ho2, ?_⟩
      rw [hif.1] at hif2
      by_cases hlt2 : st.n + ((f :: fs).map List.length).sum < N
      · rw [if_pos hlt2]
        rw [if_pos (by simp only [List.map_cons, List.sum_cons] at hlt2; omega)] at hif2
        refine ⟨?_, hif2.2⟩
        rw [hif2.1]
        simp only [List.map_cons, List.sum_cons]
        omega
      · rw [if_neg hlt2]
        rw [if_neg (by simp only [List.map_cons, List.sum_cons] at hlt2 ⊢; omega)] at hif2
        exact hif2
    · rw [if_neg hlt] at hif
      have hstop : format_fq_files cfg st (f :: fs) = ((format_fq_entries cfg st f).1, true) :=
        format_fq_files_cons_stop cfg st f fs hif.2
      rw [hstop]
      refine ⟨ho, ?_⟩
      rw [if_neg (by simp only [List.map_cons, List.sum_cons]; omega)]
      exact ⟨hif.1, rfl⟩

/-- Claim C3: a raised stop flag is a hard stop — the remaining records of
the current file and all later files are ignored; a write that pushes the
base count over a configured `max_bp` raises the flag; and with
`max_n = N > 0`, no other rejection source and at least `N` qualifying
records, the run writes exactly `N` records and terminates. -/
theorem C3_global_caps (cfg : DriverCfg) (st : DriverState)
    (files extra : List (List FastxRecord)) (l l2 : List FastxRecord) (e : FastxRecord)
    (N : Nat) :
    ((format_fq_entries cfg st l).2 = true →
      format_fq_entries cfg st (l ++ l2) = format_fq_entries cfg st l) ∧
    ((format_fq_files cfg st files).2 = true →
      format_fq_files cfg st (files ++ extra) = format_fq_files cfg st files) ∧
    (cfg.max_bp ≠ 0 → dedupRejected cfg st e.name = false →
      allowRejected cfg.keep_ids e.name = false →
      cfg.max_bp < st.n_bp + e.sequence.length → (format_fq_entry cfg st e).2 = true) ∧
    (cfg.max_n = N → 0 < N → cfg.max_bp = 0 → cfg.dedup = false → cfg.keep_ids = none →
      N ≤ (files.map List.length).sum →
      (format_fq_run cfg files).1.out.length = N ∧ (format_fq_run cfg files).2 = true) := by
  refine ⟨format_fq_entries_append cfg st l l2, format_fq_files_append cfg st files extra,
    format_fq_entry_bp_stop cfg st e, ?_⟩
  intro hN hNpos hbp hd hk htotal
  obtain ⟨ho, hif⟩ := format_fq_files_count cfg N files initDriverState hd hk hbp hN hNpos
    hNpos rfl
  rw [if_neg (by simp only [initDriverState]; omega)] at hif
  have hrun : format_fq_run cfg files = format_fq_files cfg initDriverState files := rfl
  rw [hrun, ho, hif.1]
  exact ⟨rfl, hif.2⟩

/-- Witness for C3: with `max_n = 2` and five qualifying records across
two files exactly two are written and the run stops, ignoring appended
records and files; with `max_bp = 4` a five-base write raises the stop
flag. -/
theorem C3_global_caps_witness :
    format_fq_entries ⟨false, none, 2, 0⟩ initDriverState
        ([⟨ "a", "AC", [], none⟩, ⟨ "b", "ACG", [], none⟩] ++ [⟨ "c", "T", [], none⟩]) =
      format_fq_entries ⟨false, none, 2, 0⟩ initDriverState
        [⟨ "a", "AC", [], none⟩, ⟨ "b", "ACG", [], none⟩] ∧
    format_fq_files ⟨false, none, 2, 0⟩ initDriverState
        ([[⟨ "a", "AC", [], none⟩, ⟨ "b", "ACG", [], none⟩, ⟨ "c", "T", [], none⟩],
          [⟨ "d", "G", [], none⟩, ⟨ "e", "GG", [], none⟩]] ++ [[⟨ "f", "A", [], none⟩]]) =
      format_fq_files ⟨false, none, 2, 0⟩ initDriverState
        [[⟨ "a", "AC", [], none⟩, ⟨ "b", "ACG", [], none⟩, ⟨ "c", "T", [], none⟩],
         [⟨ "d", "G", [], none⟩, ⟨ "e", "GG", [], none⟩]] ∧
    (format_fq_entry ⟨false, none, 0, 4⟩ initDriverState ⟨ "g", "ACGTT", [], none⟩).2 = true ∧
    (format_fq_run ⟨false, none, 2, 0⟩
        [[⟨ "a", "AC", [], none⟩, ⟨ "b", "ACG", [], none⟩, ⟨ "c", "T", [], none⟩],
         [⟨ "d", "G", [], none⟩, ⟨ "e", "GG", [], none⟩]]).1.out.length = 2 ∧
    (format_fq_run ⟨false, none, 2, 0⟩
        [[⟨ "a", "AC", [], none⟩, ⟨ "b", "ACG", [], none⟩, ⟨ "c", "T", [], none⟩],
         [⟨ "d", "G", [], none⟩, ⟨ "e", "GG", [], none⟩]]).2 = true := by
  have h1 := C3_global_caps ⟨false, none, 2, 0⟩ initDriverState
    [[⟨ "a", "AC", [], none⟩, ⟨ "b", "ACG", [], none⟩, ⟨ "c", "T", [], none⟩],
     [⟨ "d", "G", [], none⟩, ⟨ "e", "GG", [], none⟩]] [[⟨ "f", "A", [], none⟩]]
    [⟨ "a", "AC", [], none⟩, ⟨ "b", "ACG", [], none⟩] [⟨ "c", "T", [], none⟩]
    ⟨ "g", "ACGTT", [], none⟩ 2
  have h2 := C3_global_caps ⟨false, none, 0, 4⟩ initDriverState [] [] [] []
    ⟨ "g", "ACGTT", [], none⟩ 0
  have hcap := h1.2.2.2 rfl (by decide) rfl rfl rfl (by decide)
  exact ⟨h1.1 (by decide), h1.2.1 (by decide),
    h2.2.2.1 (by decide) (by decide) (by decide) (by decide), hcap.1, hcap.2⟩

/-- With a present-but-empty allow-list every record is rejected and the
state never changes. -/
theorem format_fq_entry_empty_allow (cfg : DriverCfg) (st : DriverState) (e : FastxRecord)
    (hk : cfg.keep_ids = some ∅) :
    format_fq_entry cfg st e = (st, false) := by
  unfold format_fq_entry
  by_cases hd : dedupRejected cfg st e.name = true
  · rw [if_pos hd]
  · rw [if_neg hd, if_pos (by simp [allowRejected, hk])]

/-- With a present-but-empty allow-list the per-file loop is inert. -/
theorem format_fq_entries_empty_allow (cfg : DriverCfg) (hk : cfg.keep_ids = some ∅) :
    ∀ (es : List FastxRecord) (st : DriverState), format_fq_entries cfg st es = (st, false) := by
  intro es
  induction es with
  | nil => intro st; rfl
  | cons e es ih =>
    intro st
    rw [format_fq_entries_cons_go cfg st e es
      (by rw [format_fq_entry_empty_allow cfg st e hk])]
    rw [format_fq_entry_empty_allow cfg st e hk]
    exact ih st

/-- With a present-but-empty allow-list the whole file loop is inert. -/
theorem format_fq_files_empty_allow (cfg : DriverCfg) (hk : cfg.keep_ids = some ∅) :
    ∀ (fs : List (List FastxRecord)) (st : DriverState), format_fq_files cfg st fs = (st, false) := by
  intro fs
  induction fs with
  | nil => intro st; rfl
  | cons f fs ih =>
    intro st
    rw [format_fq_files_cons_go cfg st f fs
      (by rw [format_fq_entries_empty_allow cfg hk f st])]
    rw [format_fq_entries_empty_allow cfg hk f st]
    exact ih st

/-- With a configured allow-list, one loop step only appends records whose
identifier is in the set. -/
theorem format_fq_entry_allow_inv (cfg : DriverCfg) (S : Finset String)
    (hk : cfg.keep_ids = some S) (st : DriverState) (e : FastxRecord)
    (hinv : ∀ r ∈ st.out, r.name ∈ S) :
    ∀ r ∈ (format_fq_entry cfg st e).1.out, r.name ∈ S := by
  unfold format_fq_entry
  by_cases h1 : dedupRejected cfg st e.name = true
  · rw [if_pos h1]
    exact hinv
  · rw [if_neg h1]
    by_cases h2 : allowRejected cfg.keep_ids e.name = true
    · rw [if_pos h2]
      exact hinv
    · rw [if_neg h2]
      intro r hr
      simp only [writeEntry_out, List.mem_append, List.mem_singleton] at hr
      rcases hr with hr | hr
      · exact hinv r hr
      · subst hr
        simp only [allowRejected, hk, decide_eq_true_eq] at h2
        exact Decidable.not_not.mp h2

/-- With a configured allow-list, the per-file loop only appends members. -/
theorem format_fq_entries_allow_inv (cfg : DriverCfg) (S : Finset String)
    (hk : cfg.keep_ids = some S) :
    ∀ (es : List FastxRecord) (st : DriverState), (∀ r ∈ st.out, r.name ∈ S) →
      ∀ r ∈ (format_fq_entries cfg st es).1.out, r.name ∈ S := by
  intro es
  induction es with
  | nil => intro st hinv; exact hinv
  | cons e es ih =>
    intro st hinv
    unfold format_fq_entries
    by_cases hp : (format_fq_entry cfg st e).2 = true
    · rw [if_pos hp]
      exact format_fq_entry_allow_inv cfg S hk st e hinv
    · rw [if_neg hp]
      exact ih _ (format_fq_entry_allow_inv cfg S hk st e hinv)

/-- With a configured allow-list, the file loop only appends members. -/
theorem format_fq_files_allow_inv (cfg : DriverCfg) (S : Finset String)
    (hk : cfg.keep_ids = some S) :
    ∀ (fs : List (List FastxRecord)) (st : DriverState), (∀ r ∈ st.out, r.name ∈ S) →
      ∀ r ∈ (format_fq_files cfg st fs).1.out, r.name ∈ S := by
  intro fs
  induction fs with
  | nil => intro st hinv; exact hinv
  | cons f fs ih =>
    intro st hinv
    unfold format_fq_files
    by_cases hp : (format_fq_entries cfg st f).2 = true
    · rw [if_pos hp]
      exact format_fq_entries_allow_inv cfg S hk f st hinv
    · rw [if_neg hp]
      exact ih _ (format_fq_entries_allow_inv cfg S hk f st hinv)

/-- Claim C4: the allow-list is tri-state.  Loading without any source
yields `none` (no restriction), a configured source with zero identifiers
yields a present-and-empty set, and an identifier file yields its stripped
lines.  In the driver an unset allow-list rejects nothing (a record not
stopped by dedup is written), a present-and-empty one rejects everything
(the run writes nothing), and in general a written record is always a
member of the configured set. -/
theorem C4_allow_list (files : List (List FastxRecord)) (cfg : DriverCfg) (S : Finset String)
    (ls : List String) (st : DriverState) (e : FastxRecord) :
    load_keep_ids none none none = .ok none ∧
    load_keep_ids (some []) none none = .ok (some ∅) ∧
    load_keep_ids (some ls) none none = .ok (some ((ls.map pyStrip).toFinset)) ∧
    allowRejected none e.name = false ∧
    (cfg.keep_ids = none → dedupRejected cfg st e.name = false →
      format_fq_entry cfg st e = (writeEntry cfg st e, stopCond cfg (writeEntry cfg st e))) ∧
    (cfg.keep_ids = some ∅ → (format_fq_run cfg files).1.out = []) ∧
    (cfg.keep_ids = some S → ∀ r2 ∈ (format_fq_run cfg files).1.out, r2.name ∈ S) := by
  refine ⟨by decide, by decide, ?_, by simp [allowRejected], ?_, ?_, ?_⟩
  · unfold load_keep_ids
    rw [if_neg (by simp)]
    rfl
  · intro hk hdr
    unfold format_fq_entry
    rw [if_neg (by simp [hdr]), if_neg (by simp [allowRejected, hk])]
  · intro hk
    have h := format_fq_files_empty_allow cfg hk files initDriverState
    show (format_fq_files cfg initDriverState files).1.out = []
    rw [h]
    rfl
  · intro hk
    exact format_fq_files_allow_inv cfg S hk files initDriverState (by simp [initDriverState])

/-- Witness for C4 at concrete inputs: loading facts, a record written
with no allow-list, an empty run with a present-and-empty allow-list, and
membership of every written record with allow-list `{"a"}`. -/
theorem C4_allow_list_witness :
    load_keep_ids none none none = .ok none ∧
    load_keep_ids (some []) none none = .ok (some ∅) ∧
    load_keep_ids (some [ " x ", "y" ]) none none =
      .ok (some (([ " x ", "y" ].map pyStrip).toFinset)) ∧
    format_fq_entry ⟨false, none, 0, 0⟩ initDriverState ⟨ "b", "AC", [], none⟩ =
      (writeEntry ⟨false, none, 0, 0⟩ initDriverState ⟨ "b", "AC", [], none⟩,
       stopCond ⟨false, none, 0, 0⟩
         (writeEntry ⟨false, none, 0, 0⟩ initDriverState ⟨ "b", "AC", [], none⟩)) ∧
    (format_fq_run ⟨false, some ∅, 0, 0⟩
      [[⟨ "a", "AC", [], none⟩, ⟨ "b", "ACG", [], none⟩]]).1.out = [] ∧
    (∀ r2 ∈ (format_fq_run ⟨false, some {"a"}, 0, 0⟩
      [[⟨ "a", "AC", [], none⟩, ⟨ "b", "ACG", [], none⟩]]).1.out, r2.name ∈ ({"a"} : Finset String)) := by
  have h1 := C4_allow_list [[⟨ "a", "AC", [], none⟩, ⟨ "b", "ACG", [], none⟩]]
    ⟨false, none, 0, 0⟩ {"a"} [ " x ", "y" ] initDriverState ⟨ "b", "AC", [], none⟩
  have h2 := C4_allow_list [[⟨ "a", "AC", [], none⟩, ⟨ "b", "ACG", [], none⟩]]
    ⟨false, some ∅, 0, 0⟩ {"a"} [ " x ", "y" ] initDriverState ⟨ "b", "AC", [], none⟩
  have h3 := C4_allow_list [[⟨ "a", "AC", [], none⟩, ⟨ "b", "ACG", [], none⟩]]
    ⟨false, some {"a"}, 0, 0⟩ {"a"} [ " x ", "y" ] initDriverState ⟨ "b", "AC", [], none⟩
  exact ⟨h1.1, h1.2.1, h1.2.2.1, h1.2.2.2.2.1 rfl (by decide),
    h2.2.2.2.2.2.1 rfl, h3.2.2.2.2.2.2 rfl⟩

/-- With deduplication on, one loop step keeps `read_ids` equal to the set
of written identifiers and the written identifiers duplicate-free: a
rejected record changes nothing, and a write inserts an identifier that
was provably unseen. -/
theorem format_fq_entry_dedup_inv (cfg : DriverCfg) (hd : cfg.dedup = true)
    (st : DriverState) (e : FastxRecord)
    (hids : st.read_ids = (st.out.map FastxRecord.name).toFinset)
    (hnd : (st.out.map FastxRecord.name).Nodup) :
    (format_fq_entry cfg st e).1.read_ids =
      ((format_fq_entry cfg st e).1.out.map FastxRecord.name).toFinset ∧
    ((format_fq_entry cfg st e).1.out.map FastxRecord.name).Nodup := by
  unfold format_fq_entry
  by_cases h1 : dedupRejected cfg st e.name = true
  · rw [if_pos h1]
    exact ⟨hids, hnd⟩
  · rw [if_neg h1]
    by_cases h2 : allowRejected cfg.keep_ids e.name = true
    · rw [if_pos h2]
      exact ⟨hids, hnd⟩
    · rw [if_neg h2]
      have hnotmem : e.name ∉ st.read_ids := by
        simp only [dedupRejected, hd, Bool.true_and, decide_eq_true_eq] at h1
        exact h1
      have hnm : e.name ∉ st.out.map FastxRecord.name := by
        rw [hids] at hnotmem
        simpa [List.mem_toFinset] using hnotmem
      constructor
      · simp only [writeEntry_read_ids, writeEntry_out, hd, if_true, List.map_append,
          List.toFinset_append, hids]
        apply Finset.ext
        intro x
        simp [or_comm]
      · simp only [writeEntry_out, List.map_append]
        rw [List.nodup_append]
        refine ⟨hnd, List.nodup_singleton _, ?_⟩
        intro x hx hx2
        simp only [List.map_cons, List.map_nil, List.mem_singleton] at hx2
        subst hx2
        exact hnm hx

/-- With deduplication on, the per-file loop preserves the SeenIds
invariant. -/
theorem format_fq_entries_dedup_inv (cfg : DriverCfg) (hd : cfg.dedup = true) :
    ∀ (es : List FastxRecord) (st : DriverState),
      st.read_ids = (st.out.map FastxRecord.name).toFinset →
      (st.out.map FastxRecord.name).Nodup →
      ((format_fq_entries cfg st es).1.read_ids =
        ((format_fq_entries cfg st es).1.out.map FastxRecord.name).toFinset ∧
       ((format_fq_entries cfg st es).1.out.map FastxRecord.name).Nodup) := by
  intro es
  induction es with
  | nil => intro st hids hnd; exact ⟨hids, hnd⟩
  | cons e es ih =>
    intro st hids hnd
    unfold format_fq_entries
    by_cases hp : (format_fq_entry cfg st e).2 = true
    · rw [if_pos hp]
      exact format_fq_entry_dedup_inv cfg hd st e hids hnd
    · rw [if_neg hp]
      obtain ⟨h1, h2⟩ := format_fq_entry_dedup_inv cfg hd st e hids hnd
      exact ih _ h1 h2

/-- With deduplication on, the file loop preserves the SeenIds
invariant. -/
theorem format_fq_files_dedup_inv (cfg : DriverCfg) (hd : cfg.dedup = true) :
    ∀ (fs : List (List FastxRecord)) (st : DriverState),
      st.read_ids = (st.out.map FastxRecord.name).toFinset →
      (st.out.map FastxRecord.name).Nodup →
      ((format_fq_files cfg st fs).1.read_ids =
        ((format_fq_files cfg st fs).1.out.map FastxRecord.name).toFinset ∧
       ((format_fq_files cfg st fs).1.out.map FastxRecord.name).Nodup) := by
  intro fs
  induction fs with
  | nil => intro st hids hnd; exact ⟨hids, hnd⟩
  | cons f fs ih =>
    intro st hids hnd
    unfold format_fq_files
    by_cases hp : (format_fq_entries cfg st f).2 = true
    · rw [if_pos hp]
      exact format_fq_entries_dedup_inv cfg hd f st hids hnd
    · rw [if_neg hp]
      obtain ⟨h1, h2⟩ := format_fq_entries_dedup_inv cfg hd f st hids hnd
      exact ih _ h1 h2

/-- Claim C10: with deduplication enabled, after any prefix of the run
(modelled by an arbitrary state already satisfying the invariant) the
SeenIds set equals exactly the set of identifiers written so far and no
identifier is written twice; in particular this holds for the whole run
from the initial state.  An identifier is recorded only upon a successful
write: a record rejected by the allow-list leaves the state — including
SeenIds — completely unchanged. -/
theorem C10_dedup_seen_ids (cfg : DriverCfg) (st : DriverState)
    (files : List (List FastxRecord)) (S : Finset String) (e : FastxRecord)
    (hd : cfg.dedup = true) :
    (st.read_ids = (st.out.map FastxRecord.name).toFinset →
      (st.out.map FastxRecord.name).Nodup →
      ((format_fq_files cfg st files).1.read_ids =
        ((format_fq_files cfg st files).1.out.map FastxRecord.name).toFinset ∧
       ((format_fq_files cfg st files).1.out.map FastxRecord.name).Nodup)) ∧
    ((format_fq_run cfg files).1.read_ids =
      ((format_fq_run cfg files).1.out.map FastxRecord.name).toFinset ∧
     ((format_fq_run cfg files).1.out.map FastxRecord.name).Nodup) ∧
    (cfg.keep_ids = some S → e.name ∉ S → format_fq_entry cfg st e = (st, false)) := by
  refine ⟨format_fq_files_dedup_inv cfg hd files st, ?_, ?_⟩
  · exact format_fq_files_dedup_inv cfg hd files initDriverState (by simp [initDriverState]) (by simp [initDriverState])
  · intro hk hnotin
    unfold format_fq_entry
    by_cases h1 : dedupRejected cfg st e.name = true
    · rw [if_pos h1]
    · rw [if_neg h1, if_pos (by simp [allowRejected, hk, hnotin])]

/-- Witness for C10: a run with duplicate identifiers across two files
satisfies the SeenIds invariant and emits each identifier once, and an
allow-list-rejected record leaves the state unchanged. -/
theorem C10_dedup_seen_ids_witness :
    ((format_fq_run ⟨true, none, 0, 0⟩
        [[⟨ "a", "AC", [], none⟩, ⟨ "b", "ACG", [], none⟩],
         [⟨ "b", "ACG", [], none⟩, ⟨ "c", "T", [], none⟩]]).1.read_ids =
      ((format_fq_run ⟨true, none, 0, 0⟩
        [[⟨ "a", "AC", [], none⟩, ⟨ "b", "ACG", [], none⟩],
         [⟨ "b", "ACG", [], none⟩, ⟨ "c", "T", [], none⟩]]).1.out.map FastxRecord.name).toFinset ∧
     ((format_fq_run ⟨true, none, 0, 0⟩
        [[⟨ "a", "AC", [], none⟩, ⟨ "b", "ACG", [], none⟩],
         [⟨ "b", "ACG", [], none⟩, ⟨ "c", "T", [], none⟩]]).1.out.map FastxRecord.name).Nodup) ∧
    format_fq_entry ⟨true, some {"a"}, 0, 0⟩ initDriverState ⟨ "b", "ACG", [], none⟩ =
      (initDriverState, false) := by
  have h1 := C10_dedup_seen_ids ⟨true, none, 0, 0⟩ initDriverState
    [[⟨ "a", "AC", [], none⟩, ⟨ "b", "ACG", [], none⟩],
     [⟨ "b", "ACG", [], none⟩, ⟨ "c", "T", [], none⟩]] {"a"} ⟨ "b", "ACG", [], none⟩ rfl
  have h2 := C10_dedup_seen_ids ⟨true, some {"a"}, 0, 0⟩ initDriverState
    [] {"a"} ⟨ "b", "ACG", [], none⟩ rfl
  exact ⟨h1.2.1, h2.2.2 rfl (by decide)⟩
